import Mathlib

/-!
Verification of the segmented transcription pipeline of the
parakeet-tdt-0.6b-v2 local transcription server.

The development shallowly embeds the core of `src/transcriber.py`
(chunk planning, the timestamp reconciler `_process_transcription_output`,
and the multi-chunk driver loop of `transcribe_audio_file`), the output
formatter `_format_transcription_output` of `src/utils/formatting_utils.py`,
and the `TranscriptionInput` validator of
`src/models/transcription_models.py`.

Modelling conventions:
* Python floats are modelled as exact rationals (the code only adds,
  subtracts and divides by constants, so the algebraic structure is the
  same; `math.ceil(duration_ms / segment_length_ms)` is modelled as the
  exact ceiling of the integer quotient).
* The filesystem is abstracted: a chunk temp file is identified by its
  chunk index (the generated names `{base}_segment_{i+1}_of_{n}.{ext}`
  are pairwise distinct within one run since the index varies), and the
  disk state of one run is the list of chunk indices whose files exist.
* The ASR model, pydub export, and the NeMo raw output are oracles
  supplied in the driver configuration, so that failure at any chunk is
  expressible.
* Exceptions are modelled with `Except`; logged warnings are collected in
  a list of strings.
-/

/-- Data model of `WordTimestamp` (transcription_models.py). -/
structure WordTimestamp where
  word : String
  start_time : ℚ
  end_time : ℚ
  deriving DecidableEq

/-- Data model of `SegmentTimestamp` (transcription_models.py). -/
structure SegmentTimestamp where
  text : String
  start_time : ℚ
  end_time : ℚ
  deriving DecidableEq

/-- Data model of `CharTimestamp` (transcription_models.py). -/
structure CharTimestamp where
  char : String
  start_time : ℚ
  end_time : ℚ
  deriving DecidableEq

/-- Data model of `TranscriptionResult` (transcription_models.py). -/
structure TranscriptionResult where
  text : String
  word_timestamps : List WordTimestamp
  segment_timestamps : List SegmentTimestamp
  char_timestamps : List CharTimestamp
  deriving DecidableEq

/-- Nominal chunk length in milliseconds:
`segment_length_ms = segment_length_minutes * 60 * 1000` (transcriber.py:265). -/
def segmentLengthMs (segment_length_minutes : ℕ) : ℕ :=
  segment_length_minutes * 60 * 1000

/-- Number of chunks: `num_segments = math.ceil(duration_ms / segment_length_ms)`
(transcriber.py:286), as the exact ceiling of the integer quotient. -/
def numSegments (duration_ms segment_length_ms : ℕ) : ℕ :=
  (duration_ms + segment_length_ms - 1) / segment_length_ms

/-- Chunk start: `start_ms = i * segment_length_ms` (transcriber.py:311). -/
def chunkStart (segment_length_ms i : ℕ) : ℕ :=
  i * segment_length_ms

/-- Chunk end: `end_ms = min((i + 1) * segment_length_ms, duration_ms)`
(transcriber.py:312). -/
def chunkEnd (duration_ms segment_length_ms i : ℕ) : ℕ :=
  min ((i + 1) * segment_length_ms) duration_ms

/-- Python `str.strip()`: removal of leading and trailing whitespace
(used at transcriber.py:356 and formatting_utils.py:43). -/
def pyStrip (s : String) : String :=
  ⟨((s.data.dropWhile Char.isWhitespace).reverse.dropWhile Char.isWhitespace).reverse⟩

/-- Raw entry of the word list of the NeMo timestamp dictionary: the fields
`item.get('word')`, `item.get('start')`, `item.get('end')`
(transcriber.py:125-127); a missing field is `none`. -/
structure RawWordItem where
  word : Option String
  start : Option ℚ
  stop : Option ℚ
  deriving DecidableEq

/-- Raw entry of the segment list: `item.get('segment')`, `item.get('start')`,
`item.get('end')` (transcriber.py:169-171). -/
structure RawSegItem where
  segment : Option String
  start : Option ℚ
  stop : Option ℚ
  deriving DecidableEq

/-- Raw entry of the char list: `item.get('char')` is itself an optional list
whose elements may be null, plus `item.get('start')`, `item.get('end')`
(transcriber.py:146-148). -/
structure RawCharItem where
  char : Option (List (Option String))
  start : Option ℚ
  stop : Option ℚ
  deriving DecidableEq

/-- An element of a raw timestamp list: either not a dict (skipped with a
warning, transcriber.py:138-139) or a dict with the relevant fields. -/
inductive RawEntry (α : Type) where
  | notDict
  | item (fields : α)
  deriving DecidableEq

/-- The structured `result_obj.timestamp` dictionary: the three lists under
keys `word`, `char`, `segment` (transcriber.py:120,141,164), each possibly
absent. -/
structure RawTimestampDict where
  word : Option (List (RawEntry RawWordItem))
  char : Option (List (RawEntry RawCharItem))
  segment : Option (List (RawEntry RawSegItem))
  deriving DecidableEq

/-- First element of the NeMo output list: either a bare string or an object
with a `text` attribute (defaulting to the empty string) and an optional
timestamp dictionary (transcriber.py:103-113). -/
inductive RawResultObj where
  | str (s : String)
  | obj (text : String) (timestamp : Option RawTimestampDict)
  deriving DecidableEq

/-- Result of `_process_transcription_output`: a plain string or a
`TranscriptionResult` (transcriber.py:72). -/
inductive ChunkOutcome where
  | plain (s : String)
  | structured (r : TranscriptionResult)
  deriving DecidableEq

/-- Errors of the embedded driver. `emptyOutput` is the
`ValueError(f"Transcription output empty ...")` of transcriber.py:101;
`exportFailure` is the `ValueError(f"Failed to export audio segment ...")` of
transcriber.py:327; `inferenceError` is an exception escaping
`model.transcribe` (transcriber.py:227). -/
inductive PyErr where
  | emptyOutput
  | exportFailure (i : ℕ)
  | inferenceError (i : ℕ)
  deriving DecidableEq

/-- Word-list loop of `_process_transcription_output` (transcriber.py:121-139):
well-formed entries get `offset_seconds` added to both bounds and are kept in
source order; a malformed entry yields a warning and is skipped. -/
def processWordEntries (offset_seconds : ℚ) :
    List (RawEntry RawWordItem) → List WordTimestamp × List String
  | [] => ([], [])
  | e :: rest =>
    let tail := processWordEntries offset_seconds rest
    match e with
    | .notDict => (tail.1, "Skipping non-dict word timestamp item" :: tail.2)
    | .item it =>
      match it.word, it.start, it.stop with
      | some w, some s, some t =>
        (⟨w, s + offset_seconds, t + offset_seconds⟩ :: tail.1, tail.2)
      | _, _, _ =>
        (tail.1, "Skipping word timestamp item with missing fields" :: tail.2)

/-- Char-list loop of `_process_transcription_output` (transcriber.py:141-162):
an entry is kept only when its `char` field is a non-empty list with a
non-null first element and both time bounds are present; the emitted char is
exactly that first element. -/
def processCharEntries (offset_seconds : ℚ) :
    List (RawEntry RawCharItem) → List CharTimestamp × List String
  | [] => ([], [])
  | e :: rest =>
    let tail := processCharEntries offset_seconds rest
    match e with
    | .notDict => (tail.1, "Skipping non-dict char timestamp item" :: tail.2)
    | .item it =>
      match it.char, it.start, it.stop with
      | some (some c :: _), some s, some t =>
        (⟨c, s + offset_seconds, t + offset_seconds⟩ :: tail.1, tail.2)
      | _, _, _ =>
        (tail.1, "Skipping char timestamp item with missing or invalid fields" :: tail.2)

/-- Segment-list loop of `_process_transcription_output`
(transcriber.py:164-183). -/
def processSegEntries (offset_seconds : ℚ) :
    List (RawEntry RawSegItem) → List SegmentTimestamp × List String
  | [] => ([], [])
  | e :: rest =>
    let tail := processSegEntries offset_seconds rest
    match e with
    | .notDict => (tail.1, "Skipping non-dict segment timestamp item" :: tail.2)
    | .item it =>
      match it.segment, it.start, it.stop with
      | some x, some s, some t =>
        (⟨x, s + offset_seconds, t + offset_seconds⟩ :: tail.1, tail.2)
      | _, _, _ =>
        (tail.1, "Skipping segment timestamp item with missing fields" :: tail.2)

/-- Processing of the whole timestamp dictionary, in the source order
word, char, segment (transcriber.py:119-183). Returns the three processed
lists and the collected warnings. -/
def processTimestampDict (offset_seconds : ℚ) (td : RawTimestampDict) :
    List WordTimestamp × List SegmentTimestamp × List CharTimestamp × List String :=
  let pw := match td.word with
    | some l => processWordEntries offset_seconds l
    | none => ([], [])
  let pc := match td.char with
    | some l => processCharEntries offset_seconds l
    | none => ([], [])
  let ps := match td.segment with
    | some l => processSegEntries offset_seconds l
    | none => ([], [])
  (pw.1, ps.1, pc.1, pw.2 ++ pc.2 ++ ps.2)

/-- Truthiness test on the head of the NeMo output, as in
`if not nemo_output or not nemo_output[0]` (transcriber.py:99): the output is
usable only when non-empty with a non-falsy first element. -/
def rawNonEmpty : List (Option RawResultObj) → Bool
  | [] => false
  | none :: _ => false
  | some (.str s) :: _ => !(s == "")
  | some (.obj _ _) :: _ => true

/-- The timestamp reconciler `_process_transcription_output`
(transcriber.py:66-215), returning the outcome together with the recorded
warnings, or the empty-output `ValueError`. -/
def processTranscriptionOutput (nemo_output : List (Option RawResultObj))
    (include_timestamps : Bool) (offset_seconds : ℚ) :
    Except PyErr (ChunkOutcome × List String) :=
  match nemo_output with
  | [] => .error .emptyOutput
  | none :: _ => .error .emptyOutput
  | some (.str s) :: _ =>
    if s = "" then .error .emptyOutput else .ok (.plain s, [])
  | some (.obj text ts) :: _ =>
    if include_timestamps then
      let p := match ts with
        | some td => processTimestampDict offset_seconds td
        | none => ([], [], [], [])
      let pw := p.1
      let ps := p.2.1
      let pc := p.2.2.1
      let warns := p.2.2.2
      let text2 :=
        if ps ≠ [] then String.intercalate " " (ps.map SegmentTimestamp.text)
        else if pw ≠ [] then String.intercalate " " (pw.map WordTimestamp.word)
        else text
      let warns2 := warns ++
        (match ts with
         | none => ["Timestamps requested but no timestamp data found in model output"]
         | some _ =>
           if pw = [] ∧ pc = [] ∧ ps = [] then
             ["Timestamps requested and raw timestamp data found, but no valid timestamps were processed"]
           else [])
      .ok (.structured ⟨text2, pw, ps, pc⟩, warns2)
    else
      .ok (.plain text, [])

/-- Configuration of one driver call: the audio duration and parameters of the
request, plus oracles for the collaborators (whether `segment.export`
succeeds for chunk `i`, whether `model.transcribe` raises on chunk `i`, and
the raw NeMo output for chunk `i`). -/
structure SegCfg where
  duration_ms : ℕ
  segment_length_minutes : ℕ
  include_timestamps : Bool
  exportOk : ℕ → Bool
  modelRaises : ℕ → Bool
  modelOut : ℕ → List (Option RawResultObj)

/-- Observable events of one driver run, in emission order. -/
inductive Event where
  | exportEvt (i : ℕ)
  | progress (completed total : ℕ)
  | modelCall (i : ℕ)
  | reconcile (i : ℕ)
  deriving DecidableEq

/-- State threaded through the multi-chunk loop of `transcribe_audio_file`
(transcriber.py:289-343). `disk` is the list of chunk indices whose temp
files currently exist; `created` mirrors `temp_segment_paths`; `offsets`
records the `current_offset_seconds` value passed to the reconciler for each
processed chunk. -/
structure DriverSt where
  disk : List ℕ
  created : List ℕ
  events : List Event
  texts : List String
  words : List WordTimestamp
  segs : List SegmentTimestamp
  chars : List CharTimestamp
  offsets : List ℚ
  offset : ℚ
  deriving DecidableEq

/-- Initial driver state: nothing created, offset 0. -/
def initSt : DriverSt := ⟨[], [], [], [], [], [], [], [], 0⟩

/-- One iteration of the multi-chunk loop (transcriber.py:310-343), for chunk
`i` of `n`. The chunk path is appended to `created` before the export
attempt; on export failure every existing file in `created` is removed and
the failure propagates (transcriber.py:324-327); progress `(i, n)` is
reported after the export and before the model call (transcriber.py:329);
a model exception or empty output propagates without any file cleanup. -/
def chunkStep (cfg : SegCfg) (n i : ℕ) (st : DriverSt) :
    Except (DriverSt × PyErr) DriverSt :=
  let s := segmentLengthMs cfg.segment_length_minutes
  let start_ms := chunkStart s i
  let end_ms := chunkEnd cfg.duration_ms s i
  let created2 := st.created ++ [i]
  if cfg.exportOk i then
    let preEvents := st.events ++ [.exportEvt i, .progress i n, .modelCall i]
    let stExported : DriverSt :=
      { st with
          created := created2
          disk := st.disk ++ [i]
          events := preEvents }
    if cfg.modelRaises i then
      .error (stExported, .inferenceError i)
    else
      match processTranscriptionOutput (cfg.modelOut i) cfg.include_timestamps st.offset with
      | .error e => .error (stExported, e)
      | .ok (outcome, _) =>
        let base : DriverSt :=
          { stExported with
              events := preEvents ++ [.reconcile i]
              offsets := st.offsets ++ [st.offset]
              offset := st.offset + ((end_ms : ℚ) - (start_ms : ℚ)) / 1000 }
        .ok (match outcome with
          | .plain t => { base with texts := base.texts ++ [t] }
          | .structured r =>
            { base with
                texts := base.texts ++ [r.text]
                words := base.words ++ r.word_timestamps
                segs := base.segs ++ r.segment_timestamps
                chars := base.chars ++ r.char_timestamps })
  else
    let stCleaned : DriverSt :=
      { st with
          created := created2
          disk := st.disk.filter (fun p => !created2.contains p) }
    .error (stCleaned, .exportFailure i)

/-- The multi-chunk loop over the listed chunk indices. -/
def runChunks (cfg : SegCfg) (n : ℕ) :
    List ℕ → DriverSt → Except (DriverSt × PyErr) DriverSt
  | [], st => .ok st
  | i :: rest, st =>
    match chunkStep cfg n i st with
    | .error e => .error e
    | .ok st2 => runChunks cfg n rest st2

/-- The driver `transcribe_audio_file` (transcriber.py:234-366): single-chunk
path when the duration fits in one segment, otherwise the multi-chunk loop
over `List.range num_segments`, followed by the final progress report, the
final best-effort cleanup (all removals modelled as succeeding), and the
aggregation `" ".join(all_texts).strip()`. Returns the final state (for
inspecting disk contents and events) with the call result. -/
def transcribeAudioFile (cfg : SegCfg) : DriverSt × Except PyErr ChunkOutcome :=
  let s := segmentLengthMs cfg.segment_length_minutes
  let d := cfg.duration_ms
  if d ≤ s then
    if cfg.modelRaises 0 then (initSt, .error (.inferenceError 0))
    else
      match processTranscriptionOutput (cfg.modelOut 0) cfg.include_timestamps 0 with
      | .error e => (initSt, .error e)
      | .ok (outcome, _) => (initSt, .ok outcome)
  else
    let n := numSegments d s
    match runChunks cfg n (List.range n) initSt with
    | .error (st, e) => (st, .error e)
    | .ok st =>
      let st2 : DriverSt :=
        { st with
            events := st.events ++ [.progress n n]
            disk := st.disk.filter (fun p => !st.created.contains p) }
      let final_text := pyStrip (String.intercalate " " st2.texts)
      if cfg.include_timestamps then
        (st2, .ok (.structured ⟨final_text, st2.words, st2.segs, st2.chars⟩))
      else
        (st2, .ok (.plain final_text))

/-- Rendering of a start time with two decimal places, as in Python
`f"[{word_start_time:.2f}s] "` (formatting_utils.py:59); Python float
formatting is modelled as decimal rounding of the exact rational. -/
def formatSeconds2 (q : ℚ) : String :=
  let n : ℕ := (⌊q * 100 + 1 / 2⌋).toNat
  let whole := n / 100
  let frac := n % 100
  toString whole ++ "." ++ (if frac < 10 then "0" ++ toString frac else toString frac)

/-- The line marker `"[" ++ start_time ++ "s] "` of formatting_utils.py:59. -/
def timeMarker (t : ℚ) : String :=
  "[" ++ formatSeconds2 t ++ "s] "

/-- State of the formatting loop of `_format_transcription_output`
(formatting_utils.py:26-28): `formatted_lines`, `current_line_prefix`
(here `marker`) and `current_line_content` (here `content`). -/
structure FmtSt where
  lines : List String
  marker : String
  content : String
  deriving DecidableEq

/-- One iteration of the word loop of `_format_transcription_output`
(formatting_utils.py:30-69) for a `WordTimestamp` input (so the start time is
always present): whitespace-only words are skipped; the first word of a line
installs its own time marker; otherwise the word is appended with a single
space unless marker + content + separator would exceed the limit, in which
case the line is flushed and a new line starts with the word's marker. -/
def fmtStep (line_char_limit : ℕ) (st : FmtSt) (w : WordTimestamp) : FmtSt :=
  if pyStrip w.word = "" then st
  else
    let seg := if st.content = "" then w.word else " " ++ w.word
    let newMarker := timeMarker w.start_time
    if st.content = "" then
      { st with
          marker := newMarker
          content := w.word }
    else if line_char_limit < (st.marker ++ st.content ++ seg).length then
      { lines := st.lines ++ [st.marker ++ st.content]
        marker := newMarker
        content := w.word }
    else
      { st with content := st.content ++ seg }

/-- The formatter `_format_transcription_output` (formatting_utils.py:5-74)
applied to a `TranscriptionResult`: with no word timestamps the plain text is
returned unchanged; otherwise the greedy line-packing loop runs and the final
pending line is flushed, the lines being joined with newlines. -/
def formatTranscriptionOutput (r : TranscriptionResult) (line_char_limit : ℕ) : String :=
  if r.word_timestamps.isEmpty then r.text
  else
    let fin := r.word_timestamps.foldl (fmtStep line_char_limit) ⟨[], "", ""⟩
    let allLines :=
      if fin.content = "" then fin.lines else fin.lines ++ [fin.marker ++ fin.content]
    String.intercalate "\n" allLines

/-- Modelled from the spec (section 4.4), for comparison with the code: a line
is the marker taken from the first word placed on it together with the words
packed onto it; the rendered line is the marker followed by the words joined
with single spaces. -/
structure SpecLine where
  marker : String
  lineWords : List String
  deriving DecidableEq

/-- Rendering of a spec-level line. -/
def renderLine (l : SpecLine) : String :=
  l.marker ++ String.intercalate " " l.lineWords

/-- Modelled from the spec (section 4.4): greedy packing step. Empty or
whitespace-only words are skipped; the first word opens a line whose marker is
its own start time; a later word is appended to the current line exactly when
the line rendered with it still fits within the limit, and otherwise starts a
new line with its own marker. -/
def specStep (line_char_limit : ℕ) (st : List SpecLine × Option SpecLine)
    (w : WordTimestamp) : List SpecLine × Option SpecLine :=
  if pyStrip w.word = "" then st
  else
    match st.2 with
    | none => (st.1, some ⟨timeMarker w.start_time, [w.word]⟩)
    | some cur =>
      let cand : SpecLine := ⟨cur.marker, cur.lineWords ++ [w.word]⟩
      if line_char_limit < (renderLine cand).length then
        (st.1 ++ [cur], some ⟨timeMarker w.start_time, [w.word]⟩)
      else
        (st.1, some cand)

/-- Modelled from the spec (section 4.4): the whole formatter, as greedy
packing of words into marked lines joined by newlines. -/
def formatTranscriptionOutputSpec (r : TranscriptionResult) (line_char_limit : ℕ) : String :=
  if r.word_timestamps.isEmpty then r.text
  else
    let fin := r.word_timestamps.foldl (specStep line_char_limit) ([], none)
    String.intercalate "\n" ((fin.1 ++ fin.2.toList).map renderLine)

/-- Relation between the code-level formatter state and the spec-level greedy
packing state: the recorded lines agree after rendering, and the pending line
(when one exists) carries the code's marker, its words joined with single
spaces as the code's content, at least one word, and non-empty content. -/
def FmtRel (st : FmtSt) (sp : List SpecLine × Option SpecLine) : Prop :=
  st.lines = sp.1.map renderLine ∧
  (match sp.2 with
   | none => st.content = ""
   | some cur =>
     st.marker = cur.marker ∧ st.content = String.intercalate " " cur.lineWords
       ∧ cur.lineWords ≠ [] ∧ st.content ≠ "")

/-- Abstract filesystem against which the `TranscriptionInput` validator runs:
which path strings exist, which are absolute, and what `os.path.abspath`
resolves a relative path to. -/
structure FsModel where
  pathExists : String → Bool
  isAbs : String → Bool
  abspath : String → String

/-- Data model of `TranscriptionInput` (transcription_models.py:6-9): exactly
the two declared fields `audio_path` and `include_timestamps`; the model has
no `segment_length_minutes` field. -/
structure TranscriptionInput where
  audio_path : String
  include_timestamps : Bool
  deriving DecidableEq

/-- The validator `audio_path_must_exist_and_be_absolute`
(transcription_models.py:11-18): a non-absolute path is converted with
`os.path.abspath` (not rejected), then the resulting path must exist. -/
def validateAudioPath (fs : FsModel) (p : String) : Except String String :=
  let abs_path := if !fs.isAbs p then fs.abspath p else p
  if !fs.pathExists abs_path then
    .error ("Audio file not found at " ++ abs_path)
  else
    .ok abs_path

/-- Construction of a `TranscriptionInput`: the validator runs on the audio
path; on success the instance carries the resolved path and the timestamp
flag. -/
def mkTranscriptionInput (fs : FsModel) (p : String) (inc : Bool) :
    Except String TranscriptionInput :=
  match validateAudioPath fs p with
  | .error e => .error e
  | .ok ap => .ok ⟨ap, inc⟩

/-- Per-chunk success condition for the driver oracles: the export succeeds,
the model call does not raise, and the raw output is usable (non-empty with a
non-falsy head), so that the reconciler does not raise either. -/
def stepOk (cfg : SegCfg) (i : ℕ) : Prop :=
  cfg.exportOk i = true ∧ cfg.modelRaises i = false
    ∧ rawNonEmpty (cfg.modelOut i) = true

instance (cfg : SegCfg) (i : ℕ) : Decidable (stepOk cfg i) := by
  unfold stepOk
  infer_instance

/-- Planned duration of chunk `i` in seconds, as the driver computes it:
`(end_ms - start_ms) / 1000.0` (transcriber.py:343). -/
def durQ (cfg : SegCfg) (i : ℕ) : ℚ :=
  let s := segmentLengthMs cfg.segment_length_minutes
  ((chunkEnd cfg.duration_ms s i : ℚ) - (chunkStart s i : ℚ)) / 1000

/-- Events produced by one successful chunk iteration, in order: export,
progress report, model call, reconciliation. -/
def chunkEvts (n i : ℕ) : List Event :=
  [.exportEvt i, .progress i n, .modelCall i, .reconcile i]

/-- Offsets passed to the reconciler across the listed chunks, starting from
a running offset. -/
def offsetsFrom (cfg : SegCfg) : ℚ → List ℕ → List ℚ
  | _, [] => []
  | off, i :: rest => off :: offsetsFrom cfg (off + durQ cfg i) rest

/-- Progress values in emission order, extracted from an event trace. -/
def progressValues (evts : List Event) : List ℕ :=
  evts.filterMap (fun e => match e with
    | .progress c _ => some c
    | _ => none)

/-- Concrete run: 61000 ms of audio with 1-minute segments (2 chunks); every
export succeeds, the model never raises, but the NeMo output for every chunk
is the empty list. -/
def cfgEmptyChunk : SegCfg :=
  { duration_ms := 61000
    segment_length_minutes := 1
    include_timestamps := true
    exportOk := fun _ => true
    modelRaises := fun _ => false
    modelOut := fun _ => [] }

/-- A raw timestamp dictionary holding exactly one well-formed segment entry
with text "a" spanning 0 to 1 seconds. -/
def tdSegA : RawTimestampDict :=
  { word := none
    char := none
    segment := some [RawEntry.item { segment := some "a", start := some 0, stop := some 1 }] }

/-- The reconciled result for `tdSegA` at offset 0. -/
def resSegA : TranscriptionResult :=
  { text := "a"
    word_timestamps := []
    segment_timestamps := [{ text := "a", start_time := 0, end_time := 1 }]
    char_timestamps := [] }

/-- Concrete multi-chunk run in which chunk 0 yields a structured result with
one segment timestamp and chunk 1 yields a structured result with text "b"
and no timestamp data at all. -/
def cfgMixedChunks : SegCfg :=
  { duration_ms := 61000
    segment_length_minutes := 1
    include_timestamps := true
    exportOk := fun _ => true
    modelRaises := fun _ => false
    modelOut := fun i =>
      if i = 0 then [some (RawResultObj.obj "ignored" (some tdSegA))]
      else [some (RawResultObj.obj "b" none)] }

/-- The aggregated result of `cfgMixedChunks`. -/
def resMixed : TranscriptionResult :=
  { text := "a b"
    word_timestamps := []
    segment_timestamps := [{ text := "a", start_time := 0, end_time := 1 }]
    char_timestamps := [] }

/-- A filesystem in which the relative name "rel.wav" resolves to the existing
absolute path "/cwd/rel.wav". -/
def fsRel : FsModel :=
  { pathExists := fun p => p == "/cwd/rel.wav"
    isAbs := fun p => p == "/cwd/rel.wav"
    abspath := fun p => "/cwd/" ++ p }

/-- The two-word result of section 8 of the spec: ("Hello", 0.1, 0.5) and
("world.", 0.6, 1.0). -/
def resHello : TranscriptionResult :=
  { text := "Hello world."
    word_timestamps := [⟨"Hello", 0.1, 0.5⟩, ⟨"world.", 0.6, 1⟩]
    segment_timestamps := []
    char_timestamps := [] }

/-- Concrete fully successful 2-chunk run (61000 ms, 1-minute segments),
each chunk transcribing to a bare string. -/
def cfgTwoChunksOk : SegCfg :=
  { duration_ms := 61000
    segment_length_minutes := 1
    include_timestamps := false
    exportOk := fun _ => true
    modelRaises := fun _ => false
    modelOut := fun i => [some (RawResultObj.str (toString i))] }

/-- Concrete 2-chunk run in which exporting chunk 1 fails, chunk 0 having
succeeded as a bare string. -/
def cfgExportFailAt1 : SegCfg :=
  { duration_ms := 61000
    segment_length_minutes := 1
    include_timestamps := false
    exportOk := fun i => i == 0
    modelRaises := fun _ => false
    modelOut := fun i => [some (RawResultObj.str (toString i))] }

/-- Projection of a driver outcome to its text and the texts of its segment
timestamps (keeping only string data, for concrete evaluation). -/
def outcomeTextAndSegTexts : Except PyErr ChunkOutcome → Option (String × List String)
  | .ok (.structured r) => some (r.text, r.segment_timestamps.map SegmentTimestamp.text)
  | _ => none

/-- Claim C2: in the multi-chunk path the planned number of chunks equals
`ceil(duration_ms / segment_length_ms)`, chunk `i` spans
`[i * segment_length_ms, min((i+1) * segment_length_ms, duration_ms))`, the
intervals are contiguous and non-empty, and every instant `t < duration_ms`
lies in exactly one chunk, the last chunk ending exactly at `duration_ms`. -/
theorem chunk_plan_spec (d m : ℕ) (hd : 0 < d) (hm1 : 1 ≤ m) (hm24 : m ≤ 24)
    (hsplit : segmentLengthMs m < d) :
    numSegments d (segmentLengthMs m) = ⌈(d : ℚ) / (segmentLengthMs m : ℚ)⌉₊
    ∧ (∀ i, chunkStart (segmentLengthMs m) i = i * segmentLengthMs m
        ∧ chunkEnd d (segmentLengthMs m) i = min ((i + 1) * segmentLengthMs m) d)
    ∧ (∀ i, i + 1 < numSegments d (segmentLengthMs m) →
        chunkEnd d (segmentLengthMs m) i = chunkStart (segmentLengthMs m) (i + 1))
    ∧ chunkEnd d (segmentLengthMs m) (numSegments d (segmentLengthMs m) - 1) = d
    ∧ (∀ i, i < numSegments d (segmentLengthMs m) →
        chunkStart (segmentLengthMs m) i < chunkEnd d (segmentLengthMs m) i)
    ∧ (∀ t, t < d → ∃! i, i < numSegments d (segmentLengthMs m)
        ∧ chunkStart (segmentLengthMs m) i ≤ t ∧ t < chunkEnd d (segmentLengthMs m) i) := by
  set s := segmentLengthMs m with hs_def
  have hs : 0 < s := by
    have : 0 < m * 60 * 1000 := by positivity
    simpa [hs_def, segmentLengthMs] using this
  set n := numSegments d s with hn_def
  -- d ≤ n * s
  have hF1 : d ≤ n * s := by
    have h := Nat.lt_div_mul_add (a := d + s - 1) hs
    have hn2 : (d + s - 1) / s = n := by rw [hn_def, numSegments]
    rw [hn2] at h
    generalize n * s = K at h ⊢
    omega
  -- (n - 1) * s < d
  have hF3 : 0 < n := by
    have h1 : 1 ≤ (d + s - 1) / s := (Nat.le_div_iff_mul_le hs).mpr (by omega)
    exact h1
  have hF2 : (n - 1) * s < d := by
    by_contra hcon
    push_neg at hcon
    have hexp : (n - 1) * s + s = n * s := by
      have hn1 : n - 1 + 1 = n := Nat.succ_pred_eq_of_pos hF3
      calc (n - 1) * s + s = (n - 1 + 1) * s := by ring
        _ = n * s := by rw [hn1]
    have h2 : d + s - 1 < n * s := by
      generalize hK : (n - 1) * s = K at hcon hexp
      omega
    have h3 : (d + s - 1) / s < n := (Nat.div_lt_iff_lt_mul hs).mpr h2
    have hne : (d + s - 1) / s = n := rfl
    rw [hne] at h3
    exact absurd h3 (lt_irrefl n)
  refine ⟨?_, fun i => ⟨rfl, rfl⟩, ?_, ?_, ?_, ?_⟩
  · -- n equals the rational ceiling of d / s
    have hsQ : (0 : ℚ) < (s : ℚ) := by exact_mod_cast hs
    have hn0 : n ≠ 0 := Nat.pos_iff_ne_zero.mp hF3
    symm
    rw [Nat.ceil_eq_iff hn0]
    constructor
    · rw [lt_div_iff₀ hsQ]
      exact_mod_cast hF2
    · rw [div_le_iff₀ hsQ]
      exact_mod_cast hF1
  · -- contiguity
    intro i hi
    have hle : (i + 1) * s ≤ (n - 1) * s := Nat.mul_le_mul_right s (by omega)
    have : (i + 1) * s < d := lt_of_le_of_lt hle hF2
    simp [chunkEnd, chunkStart, Nat.min_eq_left this.le]
  · -- last chunk ends at d
    have hn1 : n - 1 + 1 = n := Nat.succ_pred_eq_of_pos hF3
    simp [chunkEnd, hn1, Nat.min_eq_right hF1]
  · -- chunks are non-empty
    intro i hi
    have h1 : i * s < (i + 1) * s := by
      have : i < i + 1 := Nat.lt_succ_self i
      exact (Nat.mul_lt_mul_right hs).mpr this
    have h2 : i * s < d := by
      have hle : i * s ≤ (n - 1) * s := Nat.mul_le_mul_right s (by omega)
      exact lt_of_le_of_lt hle hF2
    simp only [chunkStart, chunkEnd, lt_min_iff]
    exact ⟨h1, h2⟩
  · -- exact cover, no overlaps
    intro t ht
    refine ⟨t / s, ⟨?_, ?_, ?_⟩, ?_⟩
    · rw [Nat.div_lt_iff_lt_mul hs]
      exact lt_of_lt_of_le ht hF1
    · exact Nat.div_mul_le_self t s
    · have h1 : t < (t / s + 1) * s := by
        have := Nat.lt_div_mul_add (a := t) hs
        calc t < t / s * s + s := this
          _ = (t / s + 1) * s := by ring
      simp only [chunkEnd, lt_min_iff]
      exact ⟨h1, ht⟩
    · rintro j ⟨hj, hj1, hj2⟩
      simp only [chunkEnd, lt_min_iff] at hj2
      exact (Nat.div_eq_of_lt_le hj1 (by simpa [Nat.succ_mul, Nat.add_mul] using hj2.1)).symm

/-- Witness for `chunk_plan_spec` at duration 61000 ms, segment length 1
minute (two chunks). -/
theorem chunk_plan_spec_witness :
    (0 < 61000 ∧ 1 ≤ 1 ∧ 1 ≤ 24 ∧ segmentLengthMs 1 < 61000)
    ∧ (numSegments 61000 (segmentLengthMs 1) = ⌈(61000 : ℚ) / (segmentLengthMs 1 : ℚ)⌉₊
      ∧ (∀ i, chunkStart (segmentLengthMs 1) i = i * segmentLengthMs 1
          ∧ chunkEnd 61000 (segmentLengthMs 1) i = min ((i + 1) * segmentLengthMs 1) 61000)
      ∧ (∀ i, i + 1 < numSegments 61000 (segmentLengthMs 1) →
          chunkEnd 61000 (segmentLengthMs 1) i = chunkStart (segmentLengthMs 1) (i + 1))
      ∧ chunkEnd 61000 (segmentLengthMs 1) (numSegments 61000 (segmentLengthMs 1) - 1) = 61000
      ∧ (∀ i, i < numSegments 61000 (segmentLengthMs 1) →
          chunkStart (segmentLengthMs 1) i < chunkEnd 61000 (segmentLengthMs 1) i)
      ∧ (∀ t, t < 61000 → ∃! i, i < numSegments 61000 (segmentLengthMs 1)
          ∧ chunkStart (segmentLengthMs 1) i ≤ t ∧ t < chunkEnd 61000 (segmentLengthMs 1) i)) :=
  ⟨⟨by decide, by decide, by decide, by decide⟩,
    chunk_plan_spec 61000 1 (by decide) (by decide) (by decide) (by decide)⟩

/-- Claim C1 (code bug witness): in the 2-chunk run `cfgEmptyChunk`, chunk 0
exports successfully and then the model returns an empty result, so the
empty-output `ValueError` propagates out of the driver while chunk 0's
temporary file is still on disk — contradicting the cleanup guarantee
(no chunk-temp files remain after any propagated error). -/
theorem empty_chunk_failure_leaks_temp_file :
    (transcribeAudioFile cfgEmptyChunk).2 = Except.error PyErr.emptyOutput
    ∧ (transcribeAudioFile cfgEmptyChunk).1.disk = [0]
    ∧ (transcribeAudioFile cfgEmptyChunk).1.disk ≠ [] := by
  refine ⟨rfl, rfl, by decide⟩

/-- Claim C5 (counterexample): the path "rel.wav" is not absolute in `fsRel`,
yet constructing a `TranscriptionInput` from it succeeds (the validator
converts it with abspath instead of rejecting it), refuting the claim that
construction fails whenever the audio path is not absolute. -/
theorem relative_path_accepted_counterexample :
    fsRel.isAbs "rel.wav" = false
    ∧ mkTranscriptionInput fsRel "rel.wav" true
        = Except.ok { audio_path := "/cwd/rel.wav", include_timestamps := true } := by
  exact ⟨rfl, rfl⟩

/-- Claim C5 (amended): constructing a `TranscriptionInput` first resolves a
non-absolute path with abspath (it is never rejected for being relative),
then fails if and only if the resolved path does not exist; on success the
instance carries the resolved path and the timestamp flag. The model has no
`segment_length_minutes` field, so no segment-length range check happens at
construction. -/
theorem transcription_input_validation (fs : FsModel) (p : String) (inc : Bool) :
    mkTranscriptionInput fs p inc =
      (if fs.pathExists (if fs.isAbs p then p else fs.abspath p) then
        Except.ok { audio_path := (if fs.isAbs p then p else fs.abspath p)
                    include_timestamps := inc }
      else
        Except.error ("Audio file not found at " ++ (if fs.isAbs p then p else fs.abspath p))) := by
  unfold mkTranscriptionInput validateAudioPath
  cases h1 : fs.isAbs p <;> cases h2 : fs.pathExists (if fs.isAbs p then p else fs.abspath p) <;>
    simp_all

/-- Claim C6: the reconciler's word-timestamp loop keeps exactly the
well-formed entries (text field and both time bounds present), adding the
offset to both bounds and preserving source order; every malformed entry
(missing field or non-dict shape) produces one recorded warning and is
skipped; processing a structured chunk never aborts; and for one valid plus
one malformed record the output holds exactly the valid entry. -/
theorem word_entry_skip_spec :
    (∀ (off : ℚ) (entries : List (RawEntry RawWordItem)),
      (processWordEntries off entries).1 = entries.filterMap (fun e =>
        match e with
        | .item ⟨some w, some s, some t⟩ => some ⟨w, s + off, t + off⟩
        | _ => none)
      ∧ (processWordEntries off entries).2.length = entries.countP (fun e =>
        match e with
        | .item ⟨some _, some _, some _⟩ => false
        | _ => true))
    ∧ (∀ (off : ℚ) (text : String) (td : RawTimestampDict),
        ∃ pr, processTranscriptionOutput [some (.obj text (some td))] true off = .ok pr)
    ∧ (processWordEntries 0 [.item ⟨some "Hello", some 1, some 2⟩,
        .item ⟨some "there", some 1, none⟩]).1 = [⟨"Hello", 1, 2⟩]
    ∧ (processWordEntries 0 [.item ⟨some "Hello", some 1, some 2⟩,
        .item ⟨some "there", some 1, none⟩]).2.length = 1 := by
  refine ⟨?_, ?_, by simp [processWordEntries], by simp [processWordEntries]⟩
  · intro off entries
    induction entries with
    | nil => exact ⟨rfl, rfl⟩
    | cons e rest ih =>
      obtain ⟨ih1, ih2⟩ := ih
      cases e with
      | notDict =>
        simp [processWordEntries, List.countP_cons, ih1, ih2]
      | item it =>
        obtain ⟨w, s, t⟩ := it
        cases w <;> cases s <;> cases t <;>
          simp [processWordEntries, List.countP_cons, ih1, ih2]
  · intro off text td
    exact ⟨_, rfl⟩

/-- Claim C10: the reconciler's char-timestamp loop emits a `CharTimestamp`
exactly for entries whose char field is a non-empty list with a non-null
first element and whose two time bounds are present; the emitted char is that
first element (later elements are discarded); entries with a missing, empty
or null-headed char list are skipped with one recorded warning each. -/
theorem char_entry_first_element_spec :
    (∀ (off : ℚ) (entries : List (RawEntry RawCharItem)),
      (processCharEntries off entries).1 = entries.filterMap (fun e =>
        match e with
        | .item ⟨some (some c :: _), some s, some t⟩ => some ⟨c, s + off, t + off⟩
        | _ => none)
      ∧ (processCharEntries off entries).2.length = entries.countP (fun e =>
        match e with
        | .item ⟨some (some _ :: _), some _, some _⟩ => false
        | _ => true))
    ∧ (processCharEntries 0 [
        .item ⟨some [some "a", some "z"], some 1, some 2⟩,
        .item ⟨none, some 1, some 2⟩,
        .item ⟨some [], some 1, some 2⟩,
        .item ⟨some [none, some "x"], some 1, some 2⟩]).1 = [⟨"a", 1, 2⟩]
    ∧ (processCharEntries 0 [
        .item ⟨some [some "a", some "z"], some 1, some 2⟩,
        .item ⟨none, some 1, some 2⟩,
        .item ⟨some [], some 1, some 2⟩,
        .item ⟨some [none, some "x"], some 1, some 2⟩]).2.length = 3 := by
  refine ⟨?_, by simp [processCharEntries], by simp [processCharEntries]⟩
  intro off entries
  induction entries with
  | nil => exact ⟨rfl, rfl⟩
  | cons e rest ih =>
    obtain ⟨ih1, ih2⟩ := ih
    cases e with
    | notDict =>
      simp [processCharEntries, List.countP_cons, ih1, ih2]
    | item it =>
      obtain ⟨c, s, t⟩ := it
      cases c with
      | none =>
        cases s <;> cases t <;>
          simp [processCharEntries, List.countP_cons, ih1, ih2]
      | some l =>
        cases l with
        | nil =>
          cases s <;> cases t <;>
            simp [processCharEntries, List.countP_cons, ih1, ih2]
        | cons hd tl =>
          cases hd <;> cases s <;> cases t <;>
            simp [processCharEntries, List.countP_cons, ih1, ih2]

/-- Claim C3 (counterexample): in the 2-chunk run `cfgMixedChunks` with
timestamps requested, the reported aggregate result has segment texts
`["a"]` (a non-empty `segment_timestamps` list) while its `text` field is
"a b" — and "a b" differs from joining the segment texts with spaces, so
the aggregated multi-chunk result violates the claimed invariant. -/
theorem aggregate_text_join_counterexample :
    outcomeTextAndSegTexts (transcribeAudioFile cfgMixedChunks).2 = some ("a b", ["a"])
    ∧ ("a b" : String) ≠ String.intercalate " " ["a"] := by
  exact ⟨rfl, by decide⟩

/-- Claim C3 (amended): every `TranscriptionResult` produced by the
reconciler itself — hence by any single-chunk run — with a non-empty
`segment_timestamps` list has its `text` equal to the segment texts joined
with single spaces in list order (the multi-chunk aggregate can break this,
see the counterexample). -/
theorem reconciler_text_matches_segments (o : List (Option RawResultObj)) (off : ℚ)
    (r : TranscriptionResult) (warns : List String)
    (h : processTranscriptionOutput o true off = .ok (.structured r, warns))
    (hseg : r.segment_timestamps ≠ []) :
    r.text = String.intercalate " " (r.segment_timestamps.map SegmentTimestamp.text) := by
  match o with
  | [] => exact absurd h (by simp [processTranscriptionOutput])
  | none :: _ => exact absurd h (by simp [processTranscriptionOutput])
  | some (.str s) :: _ =>
    by_cases hs : s = "" <;> simp [processTranscriptionOutput, hs] at h
  | some (.obj text ts) :: _ =>
    rcases hmatch : (match ts with
      | some td => processTimestampDict off td
      | none => ([], [], [], [])) with ⟨pw, ps, pc, ws⟩
    simp only [processTranscriptionOutput, hmatch, if_true] at h
    by_cases hps : ps = []
    · subst hps
      simp only [ne_eq, not_true_eq_false, if_false, Except.ok.injEq, Prod.mk.injEq,
        ChunkOutcome.structured.injEq] at h
      obtain ⟨h1, _⟩ := h
      subst h1
      simp at hseg
    · simp only [ne_eq, hps, not_false_eq_true, if_true, Except.ok.injEq, Prod.mk.injEq,
        ChunkOutcome.structured.injEq] at h
      obtain ⟨h1, _⟩ := h
      subst h1
      simp

/-- Witness for `reconciler_text_matches_segments`: a concrete raw output
with one segment entry reconciles to `resSegA`, whose text is the join of its
segment texts. -/
theorem reconciler_text_matches_segments_witness :
    processTranscriptionOutput [some (RawResultObj.obj "x" (some tdSegA))] true 0
        = Except.ok (ChunkOutcome.structured resSegA, [])
    ∧ resSegA.segment_timestamps ≠ []
    ∧ resSegA.text
        = String.intercalate " " (resSegA.segment_timestamps.map SegmentTimestamp.text) := by
  have hEval : processTranscriptionOutput [some (RawResultObj.obj "x" (some tdSegA))] true 0
      = Except.ok (ChunkOutcome.structured resSegA, []) := by
    simp [processTranscriptionOutput, processTimestampDict, processSegEntries, tdSegA, resSegA,
      String.intercalate, String.intercalate.go]
  exact ⟨hEval, by simp [resSegA],
    reconciler_text_matches_segments _ 0 resSegA [] hEval (by simp [resSegA])⟩

theorem segmentLengthMs_pos (m : ℕ) (hm : 1 ≤ m) : 0 < segmentLengthMs m := by
  have : 0 < m * 60 * 1000 := by positivity
  simpa [segmentLengthMs] using this

theorem numSegments_pos (d s : ℕ) (hs : 0 < s) (hd : 0 < d) : 0 < numSegments d s := by
  have h1 : 1 ≤ (d + s - 1) / s := (Nat.le_div_iff_mul_le hs).mpr (by omega)
  exact h1

theorem numSegments_mul_ge (d s : ℕ) (hs : 0 < s) : d ≤ numSegments d s * s := by
  have h := Nat.lt_div_mul_add (a := d + s - 1) hs
  have hn2 : (d + s - 1) / s = numSegments d s := by rw [numSegments]
  rw [hn2] at h
  generalize numSegments d s * s = K at h ⊢
  omega

theorem numSegments_pred_mul_lt (d s : ℕ) (hs : 0 < s) (hd : 0 < d) :
    (numSegments d s - 1) * s < d := by
  have hF3 := numSegments_pos d s hs hd
  by_contra hcon
  push_neg at hcon
  have hexp : (numSegments d s - 1) * s + s = numSegments d s * s := by
    have hn1 : numSegments d s - 1 + 1 = numSegments d s := Nat.succ_pred_eq_of_pos hF3
    calc (numSegments d s - 1) * s + s = (numSegments d s - 1 + 1) * s := by ring
      _ = numSegments d s * s := by rw [hn1]
  have h2 : d + s - 1 < numSegments d s * s := by
    generalize hK : (numSegments d s - 1) * s = K at hcon hexp
    omega
  have h3 : (d + s - 1) / s < numSegments d s := (Nat.div_lt_iff_lt_mul hs).mpr h2
  have hne : (d + s - 1) / s = numSegments d s := rfl
  rw [hne] at h3
  exact absurd h3 (lt_irrefl _)

theorem durQ_nonneg (cfg : SegCfg) (k : ℕ) (hm1 : 1 ≤ cfg.segment_length_minutes)
    (hd : 0 < cfg.duration_ms)
    (hk : k < numSegments cfg.duration_ms (segmentLengthMs cfg.segment_length_minutes)) :
    0 ≤ durQ cfg k := by
  have hs := segmentLengthMs_pos cfg.segment_length_minutes hm1
  have hlt := numSegments_pred_mul_lt cfg.duration_ms
    (segmentLengthMs cfg.segment_length_minutes) hs hd
  have hks : k * segmentLengthMs cfg.segment_length_minutes ≤ cfg.duration_ms := by
    have : k * segmentLengthMs cfg.segment_length_minutes
        ≤ (numSegments cfg.duration_ms (segmentLengthMs cfg.segment_length_minutes) - 1)
          * segmentLengthMs cfg.segment_length_minutes :=
      Nat.mul_le_mul_right _ (by omega)
    omega
  have hcc : chunkStart (segmentLengthMs cfg.segment_length_minutes) k
      ≤ chunkEnd cfg.duration_ms (segmentLengthMs cfg.segment_length_minutes) k := by
    simp only [chunkStart, chunkEnd, le_min_iff]
    constructor
    · exact Nat.mul_le_mul_right _ (by omega)
    · exact hks
  have : (0 : ℚ) ≤ (chunkEnd cfg.duration_ms (segmentLengthMs cfg.segment_length_minutes) k : ℚ)
      - (chunkStart (segmentLengthMs cfg.segment_length_minutes) k : ℚ) := by
    rw [sub_nonneg]
    exact_mod_cast hcc
  rw [durQ]
  positivity

/-- Characterization of the reconciler's success: it returns a value exactly
when the raw output is non-empty with a non-falsy head. -/
theorem processOutput_isOk (o : List (Option RawResultObj)) (inc : Bool) (off : ℚ)
    (h : rawNonEmpty o = true) :
    ∃ res, processTranscriptionOutput o inc off = .ok res := by
  match o with
  | [] => simp [rawNonEmpty] at h
  | none :: rest => simp [rawNonEmpty] at h
  | some (.str s) :: rest =>
    by_cases hs : s = ""
    · subst hs
      simp [rawNonEmpty] at h
    · exact ⟨(.plain s, []), by simp [processTranscriptionOutput, hs]⟩
  | some (.obj text ts) :: rest =>
    cases inc
    · exact ⟨_, rfl⟩
    · exact ⟨_, rfl⟩

/-- A successful chunk iteration appends its four events, records the running
offset, advances the offset by the chunk duration, and adds the chunk file to
both the created list and the disk. -/
theorem chunkStep_ok (cfg : SegCfg) (n i : ℕ) (st : DriverSt) (h : stepOk cfg i) :
    ∃ st2, chunkStep cfg n i st = .ok st2
      ∧ st2.events = st.events ++ chunkEvts n i
      ∧ st2.offsets = st.offsets ++ [st.offset]
      ∧ st2.offset = st.offset + durQ cfg i
      ∧ st2.disk = st.disk ++ [i]
      ∧ st2.created = st.created ++ [i] := by
  obtain ⟨hx, hm, hr⟩ := h
  obtain ⟨⟨outcome, warns⟩, hres⟩ :=
    processOutput_isOk (cfg.modelOut i) cfg.include_timestamps st.offset hr
  cases outcome with
  | plain t =>
    refine ⟨{ st with
        created := st.created ++ [i]
        disk := st.disk ++ [i]
        events := st.events ++ chunkEvts n i
        offsets := st.offsets ++ [st.offset]
        offset := st.offset + durQ cfg i
        texts := st.texts ++ [t] }, ?_, rfl, rfl, rfl, rfl, rfl⟩
    simp [chunkStep, hx, hm, hres, durQ, chunkEvts]
  | structured r =>
    refine ⟨{ st with
        created := st.created ++ [i]
        disk := st.disk ++ [i]
        events := st.events ++ chunkEvts n i
        offsets := st.offsets ++ [st.offset]
        offset := st.offset + durQ cfg i
        texts := st.texts ++ [r.text]
        words := st.words ++ r.word_timestamps
        segs := st.segs ++ r.segment_timestamps
        chars := st.chars ++ r.char_timestamps }, ?_, rfl, rfl, rfl, rfl, rfl⟩
    simp [chunkStep, hx, hm, hres, durQ, chunkEvts]

/-- A run over chunks that all succeed accumulates their events, offsets,
and chunk files in order. -/
theorem runChunks_ok (cfg : SegCfg) (n : ℕ) (js : List ℕ) :
    ∀ st : DriverSt, (∀ i ∈ js, stepOk cfg i) →
    ∃ st2, runChunks cfg n js st = .ok st2
      ∧ st2.events = st.events ++ js.flatMap (chunkEvts n)
      ∧ st2.offsets = st.offsets ++ offsetsFrom cfg st.offset js
      ∧ st2.disk = st.disk ++ js
      ∧ st2.created = st.created ++ js := by
  induction js with
  | nil =>
    intro st h
    exact ⟨st, rfl, by simp, by simp [offsetsFrom], by simp, by simp⟩
  | cons i rest ih =>
    intro st h
    obtain ⟨st1, hstep, he, ho, hoff, hd, hc⟩ := chunkStep_ok cfg n i st (h i (by simp))
    obtain ⟨st2, hrun, he2, ho2, hd2, hc2⟩ := ih st1 (fun j hj => h j (by simp [hj]))
    refine ⟨st2, ?_, ?_, ?_, ?_, ?_⟩
    · simp [runChunks, hstep, hrun]
    · rw [he2, he]
      simp [chunkEvts]
    · rw [ho2, ho, hoff]
      simp [offsetsFrom]
    · rw [hd2, hd]
      simp
    · rw [hc2, hc]
      simp

theorem offsetsFrom_length (cfg : SegCfg) (js : List ℕ) : ∀ (off : ℚ),
    (offsetsFrom cfg off js).length = js.length := by
  induction js with
  | nil => intro off; rfl
  | cons i rest ih => intro off; simp [offsetsFrom, ih]

theorem offsetsFrom_getD (cfg : SegCfg) (js : List ℕ) : ∀ (off : ℚ) (k : ℕ), k < js.length →
    (offsetsFrom cfg off js).getD k 0 = off + ((js.take k).map (durQ cfg)).sum := by
  induction js with
  | nil => intro off k hk; simp at hk
  | cons i rest ih =>
    intro off k hk
    cases k with
    | zero => simp [offsetsFrom]
    | succ k2 =>
      simp only [offsetsFrom, List.getD_cons_succ, List.take_succ_cons, List.map_cons,
        List.sum_cons]
      rw [ih (off + durQ cfg i) k2 (by simpa using hk)]
      ring

/-- Reduction of the driver on the multi-chunk path when the loop succeeds:
the returned state is the loop state with the final progress event appended
and the final cleanup applied. -/
theorem transcribeAudioFile_multi_ok (cfg : SegCfg)
    (hmulti : segmentLengthMs cfg.segment_length_minutes < cfg.duration_ms)
    (st2 : DriverSt)
    (hrun : runChunks cfg
        (numSegments cfg.duration_ms (segmentLengthMs cfg.segment_length_minutes))
        (List.range (numSegments cfg.duration_ms (segmentLengthMs cfg.segment_length_minutes)))
        initSt = .ok st2) :
    (transcribeAudioFile cfg).1 = { st2 with
        events := st2.events ++
          [Event.progress (numSegments cfg.duration_ms (segmentLengthMs cfg.segment_length_minutes))
            (numSegments cfg.duration_ms (segmentLengthMs cfg.segment_length_minutes))]
        disk := st2.disk.filter (fun p => !st2.created.contains p) } := by
  simp only [transcribeAudioFile]
  rw [if_neg (not_le.mpr hmulti), hrun]
  cases hti : cfg.include_timestamps <;> simp [hti]

/-- Claim C4: in a successful multi-chunk run, the offset passed to the
reconciler for chunk `i` equals the sum of the durations in seconds of chunks
`0..i-1` as the driver computes them (`(end_ms - start_ms) / 1000`, zero for
the first chunk), and the recorded offsets are non-decreasing across chunks
in plan order. -/
theorem offsets_cumulative_monotone (cfg : SegCfg)
    (hm1 : 1 ≤ cfg.segment_length_minutes)
    (hmulti : segmentLengthMs cfg.segment_length_minutes < cfg.duration_ms)
    (hok : ∀ i, i < numSegments cfg.duration_ms (segmentLengthMs cfg.segment_length_minutes) →
      stepOk cfg i) :
    (transcribeAudioFile cfg).1.offsets.length
        = numSegments cfg.duration_ms (segmentLengthMs cfg.segment_length_minutes)
    ∧ (∀ i, i < numSegments cfg.duration_ms (segmentLengthMs cfg.segment_length_minutes) →
        (transcribeAudioFile cfg).1.offsets.getD i 0 = ((List.range i).map (durQ cfg)).sum)
    ∧ (∀ i j, i ≤ j →
        j < numSegments cfg.duration_ms (segmentLengthMs cfg.segment_length_minutes) →
        (transcribeAudioFile cfg).1.offsets.getD i 0
          ≤ (transcribeAudioFile cfg).1.offsets.getD j 0) := by
  have hs := segmentLengthMs_pos _ hm1
  have hd : 0 < cfg.duration_ms := lt_trans hs hmulti
  obtain ⟨st2, hrun, he, ho, hdk, hc⟩ :=
    runChunks_ok cfg (numSegments cfg.duration_ms (segmentLengthMs cfg.segment_length_minutes))
      (List.range (numSegments cfg.duration_ms (segmentLengthMs cfg.segment_length_minutes)))
      initSt (fun i hi => hok i (List.mem_range.mp hi))
  have h1 : (transcribeAudioFile cfg).1.offsets
      = offsetsFrom cfg 0
          (List.range (numSegments cfg.duration_ms (segmentLengthMs cfg.segment_length_minutes))) := by
    rw [transcribeAudioFile_multi_ok cfg hmulti st2 hrun]
    simpa [initSt] using ho
  have hgetD : ∀ i, i < numSegments cfg.duration_ms (segmentLengthMs cfg.segment_length_minutes) →
      (transcribeAudioFile cfg).1.offsets.getD i 0 = ((List.range i).map (durQ cfg)).sum := by
    intro i hi
    rw [h1, offsetsFrom_getD cfg _ 0 i (by simpa using hi)]
    rw [List.take_range, min_eq_left (le_of_lt hi), zero_add]
  refine ⟨?_, hgetD, ?_⟩
  · rw [h1, offsetsFrom_length, List.length_range]
  · intro i j hij hj
    rw [hgetD i (lt_of_le_of_lt hij hj), hgetD j hj]
    have hsplit : List.range j = List.range i ++ (List.range (j - i)).map (i + ·) := by
      have : j = i + (j - i) := by omega
      rw [this, List.range_add]
      simp
    rw [hsplit, List.map_append, List.sum_append]
    have hnn : 0 ≤ (((List.range (j - i)).map (i + ·)).map (durQ cfg)).sum := by
      apply List.sum_nonneg
      intro x hx
      simp only [List.map_map, List.mem_map, List.mem_range, Function.comp] at hx
      obtain ⟨k, hk, rfl⟩ := hx
      exact durQ_nonneg cfg (i + k) hm1 hd (by omega)
    exact le_add_of_nonneg_right hnn


/-- Witness for `offsets_cumulative_monotone` on the concrete successful
2-chunk run `cfgTwoChunksOk`. -/
theorem offsets_cumulative_monotone_witness :
    (1 ≤ cfgTwoChunksOk.segment_length_minutes
      ∧ segmentLengthMs cfgTwoChunksOk.segment_length_minutes < cfgTwoChunksOk.duration_ms
      ∧ (∀ i, i < numSegments cfgTwoChunksOk.duration_ms
          (segmentLengthMs cfgTwoChunksOk.segment_length_minutes) → stepOk cfgTwoChunksOk i))
    ∧ ((transcribeAudioFile cfgTwoChunksOk).1.offsets.length
        = numSegments cfgTwoChunksOk.duration_ms
            (segmentLengthMs cfgTwoChunksOk.segment_length_minutes)
      ∧ (∀ i, i < numSegments cfgTwoChunksOk.duration_ms
            (segmentLengthMs cfgTwoChunksOk.segment_length_minutes) →
          (transcribeAudioFile cfgTwoChunksOk).1.offsets.getD i 0
            = ((List.range i).map (durQ cfgTwoChunksOk)).sum)
      ∧ (∀ i j, i ≤ j →
          j < numSegments cfgTwoChunksOk.duration_ms
            (segmentLengthMs cfgTwoChunksOk.segment_length_minutes) →
          (transcribeAudioFile cfgTwoChunksOk).1.offsets.getD i 0
            ≤ (transcribeAudioFile cfgTwoChunksOk).1.offsets.getD j 0)) :=
  ⟨⟨by decide, by decide, by decide⟩,
    offsets_cumulative_monotone cfgTwoChunksOk (by decide) (by decide) (by decide)⟩

/-- Helper: `progressValues` distributes over list append. -/
theorem progressValues_append (a b : List Event) :
    progressValues (a ++ b) = progressValues a ++ progressValues b := by
  simp [progressValues]

/-- Claim C9 (amended): in a successful multi-chunk run the event trace is,
for each chunk in order, export then progress report `(i, n)` then model call
then reconciliation — so the progress report for chunk `i` is emitted after
its export succeeds but before its model call and reconciliation — followed
by a final `(n, n)` report; the reported progress values are `0, 1, ..., n`,
a strictly increasing sequence. -/
theorem progress_event_ordering (cfg : SegCfg)
    (hmulti : segmentLengthMs cfg.segment_length_minutes < cfg.duration_ms)
    (hok : ∀ i, i < numSegments cfg.duration_ms (segmentLengthMs cfg.segment_length_minutes) →
      stepOk cfg i) :
    (transcribeAudioFile cfg).1.events
        = (List.range (numSegments cfg.duration_ms
              (segmentLengthMs cfg.segment_length_minutes))).flatMap
            (chunkEvts (numSegments cfg.duration_ms (segmentLengthMs cfg.segment_length_minutes)))
          ++ [Event.progress
              (numSegments cfg.duration_ms (segmentLengthMs cfg.segment_length_minutes))
              (numSegments cfg.duration_ms (segmentLengthMs cfg.segment_length_minutes))]
    ∧ progressValues (transcribeAudioFile cfg).1.events
        = List.range (numSegments cfg.duration_ms
            (segmentLengthMs cfg.segment_length_minutes) + 1)
    ∧ (progressValues (transcribeAudioFile cfg).1.events).Pairwise (· < ·) := by
  obtain ⟨st2, hrun, he, ho, hdk, hc⟩ :=
    runChunks_ok cfg (numSegments cfg.duration_ms (segmentLengthMs cfg.segment_length_minutes))
      (List.range (numSegments cfg.duration_ms (segmentLengthMs cfg.segment_length_minutes)))
      initSt (fun i hi => hok i (List.mem_range.mp hi))
  have h1 : (transcribeAudioFile cfg).1.events
      = (List.range (numSegments cfg.duration_ms
            (segmentLengthMs cfg.segment_length_minutes))).flatMap
          (chunkEvts (numSegments cfg.duration_ms (segmentLengthMs cfg.segment_length_minutes)))
        ++ [Event.progress
            (numSegments cfg.duration_ms (segmentLengthMs cfg.segment_length_minutes))
            (numSegments cfg.duration_ms (segmentLengthMs cfg.segment_length_minutes))] := by
    rw [transcribeAudioFile_multi_ok cfg hmulti st2 hrun]
    simp [he, initSt]
  have hpv : ∀ m : ℕ, progressValues ((List.range m).flatMap
      (chunkEvts (numSegments cfg.duration_ms (segmentLengthMs cfg.segment_length_minutes))))
      = List.range m := by
    intro m
    induction m with
    | zero => rfl
    | succ k ih =>
      rw [List.range_succ, List.flatMap_append, progressValues_append, ih]
      rfl
  have h2 : progressValues (transcribeAudioFile cfg).1.events
      = List.range (numSegments cfg.duration_ms
          (segmentLengthMs cfg.segment_length_minutes) + 1) := by
    rw [h1, progressValues_append, hpv, List.range_succ]
    rfl
  refine ⟨h1, h2, ?_⟩
  rw [h2]
  exact List.pairwise_lt_range _

/-- Claim C9 (counterexample): in the concrete successful run
`cfgTwoChunksOk` the progress report `(0, 2)` for chunk 0 appears in the
trace before chunk 0's model call and reconciliation, refuting the claim
that progress is emitted only after a chunk completes its processing
(export, model call and reconciliation). -/
theorem progress_before_model_call_counterexample :
    (transcribeAudioFile cfgTwoChunksOk).1.events
        = [Event.exportEvt 0, Event.progress 0 2, Event.modelCall 0, Event.reconcile 0,
           Event.exportEvt 1, Event.progress 1 2, Event.modelCall 1, Event.reconcile 1,
           Event.progress 2 2]
    ∧ (transcribeAudioFile cfgTwoChunksOk).1.events.indexOf (Event.progress 0 2)
        < (transcribeAudioFile cfgTwoChunksOk).1.events.indexOf (Event.modelCall 0)
    ∧ (transcribeAudioFile cfgTwoChunksOk).1.events.indexOf (Event.progress 0 2)
        < (transcribeAudioFile cfgTwoChunksOk).1.events.indexOf (Event.reconcile 0) := by
  exact ⟨rfl, by decide, by decide⟩

/-- Witness for `progress_event_ordering` on the concrete successful 2-chunk
run `cfgTwoChunksOk`. -/
theorem progress_event_ordering_witness :
    (segmentLengthMs cfgTwoChunksOk.segment_length_minutes < cfgTwoChunksOk.duration_ms
      ∧ (∀ i, i < numSegments cfgTwoChunksOk.duration_ms
          (segmentLengthMs cfgTwoChunksOk.segment_length_minutes) → stepOk cfgTwoChunksOk i))
    ∧ ((transcribeAudioFile cfgTwoChunksOk).1.events
        = (List.range (numSegments cfgTwoChunksOk.duration_ms
              (segmentLengthMs cfgTwoChunksOk.segment_length_minutes))).flatMap
            (chunkEvts (numSegments cfgTwoChunksOk.duration_ms
              (segmentLengthMs cfgTwoChunksOk.segment_length_minutes)))
          ++ [Event.progress
              (numSegments cfgTwoChunksOk.duration_ms
                (segmentLengthMs cfgTwoChunksOk.segment_length_minutes))
              (numSegments cfgTwoChunksOk.duration_ms
                (segmentLengthMs cfgTwoChunksOk.segment_length_minutes))]
      ∧ progressValues (transcribeAudioFile cfgTwoChunksOk).1.events
          = List.range (numSegments cfgTwoChunksOk.duration_ms
              (segmentLengthMs cfgTwoChunksOk.segment_length_minutes) + 1)
      ∧ (progressValues (transcribeAudioFile cfgTwoChunksOk).1.events).Pairwise (· < ·)) :=
  ⟨⟨by decide, by decide⟩,
    progress_event_ordering cfgTwoChunksOk (by decide) (by decide)⟩

/-- Helper: running the loop over an appended index list runs the first part
and, if it succeeds, continues with the second. -/
theorem runChunks_append (cfg : SegCfg) (n : ℕ) (a b : List ℕ) :
    ∀ st, runChunks cfg n (a ++ b) st
      = match runChunks cfg n a st with
        | .error e => .error e
        | .ok st2 => runChunks cfg n b st2 := by
  induction a with
  | nil => intro st; rfl
  | cons i rest ih =>
    intro st
    simp only [List.cons_append, runChunks]
    cases hcs : chunkStep cfg n i st with
    | error e => rfl
    | ok st1 => exact ih st1

/-- Claim C7: in a multi-chunk run in which every chunk before `j` succeeds
and exporting chunk `j` fails, the whole request fails with the export error
for chunk `j` and every chunk file exported earlier in the run is deleted
before the error propagates — the final disk state is empty, and no
transcription result is returned. -/
theorem export_failure_cleanup (cfg : SegCfg) (j : ℕ)
    (hm1 : 1 ≤ cfg.segment_length_minutes)
    (hmulti : segmentLengthMs cfg.segment_length_minutes < cfg.duration_ms)
    (hj : j < numSegments cfg.duration_ms (segmentLengthMs cfg.segment_length_minutes))
    (hfail : cfg.exportOk j = false)
    (hprev : ∀ k, k < j → stepOk cfg k) :
    (transcribeAudioFile cfg).2 = Except.error (PyErr.exportFailure j)
    ∧ (transcribeAudioFile cfg).1.disk = [] := by
  obtain ⟨st1, hrun1, he1, ho1, hd1, hc1⟩ :=
    runChunks_ok cfg (numSegments cfg.duration_ms (segmentLengthMs cfg.segment_length_minutes))
      (List.range j) initSt (fun k hk => hprev k (List.mem_range.mp hk))
  have hd1x : st1.disk = List.range j := by simpa [initSt] using hd1
  have hc1x : st1.created = List.range j := by simpa [initSt] using hc1
  obtain ⟨m, hm⟩ : ∃ m, numSegments cfg.duration_ms
      (segmentLengthMs cfg.segment_length_minutes) = j + (m + 1) :=
    ⟨numSegments cfg.duration_ms (segmentLengthMs cfg.segment_length_minutes) - j - 1, by omega⟩
  have hsplit : List.range (numSegments cfg.duration_ms
      (segmentLengthMs cfg.segment_length_minutes))
      = List.range j ++ (List.range (m + 1)).map (j + ·) := by
    rw [hm, List.range_add]
  have hb : (List.range (m + 1)).map (j + ·)
      = j :: (List.range m).map (fun x => j + (x + 1)) := by
    rw [List.range_succ_eq_map]
    simp [List.map_map, Function.comp_def, Nat.succ_eq_add_one]
  have hstep : chunkStep cfg
      (numSegments cfg.duration_ms (segmentLengthMs cfg.segment_length_minutes)) j st1
      = .error ({ st1 with
          created := st1.created ++ [j]
          disk := st1.disk.filter (fun p => !((st1.created ++ [j]).contains p)) },
        PyErr.exportFailure j) := by
    simp [chunkStep, hfail]
  have hfilter : st1.disk.filter (fun p => !((st1.created ++ [j]).contains p)) = [] := by
    rw [hd1x, hc1x, List.filter_eq_nil_iff]
    intro a ha
    have hmem : a ∈ List.range j ++ [j] := List.mem_append_left _ ha
    simp [hmem]
  have hrunFull : runChunks cfg
      (numSegments cfg.duration_ms (segmentLengthMs cfg.segment_length_minutes))
      (List.range (numSegments cfg.duration_ms (segmentLengthMs cfg.segment_length_minutes)))
      initSt
      = .error ({ st1 with
          created := st1.created ++ [j]
          disk := st1.disk.filter (fun p => !((st1.created ++ [j]).contains p)) },
        PyErr.exportFailure j) := by
    rw [hsplit, runChunks_append, hrun1, hb]
    simp only [runChunks, hstep]
  constructor
  · simp only [transcribeAudioFile]
    rw [if_neg (not_le.mpr hmulti), hrunFull]
  · simp only [transcribeAudioFile]
    rw [if_neg (not_le.mpr hmulti), hrunFull]
    simpa using hfilter

/-- Witness for `export_failure_cleanup`: the concrete run
`cfgExportFailAt1`, where chunk 0 succeeds and the export of chunk 1 fails. -/
theorem export_failure_cleanup_witness :
    (1 ≤ cfgExportFailAt1.segment_length_minutes
      ∧ segmentLengthMs cfgExportFailAt1.segment_length_minutes < cfgExportFailAt1.duration_ms
      ∧ 1 < numSegments cfgExportFailAt1.duration_ms
          (segmentLengthMs cfgExportFailAt1.segment_length_minutes)
      ∧ cfgExportFailAt1.exportOk 1 = false
      ∧ (∀ k, k < 1 → stepOk cfgExportFailAt1 k))
    ∧ ((transcribeAudioFile cfgExportFailAt1).2 = Except.error (PyErr.exportFailure 1)
      ∧ (transcribeAudioFile cfgExportFailAt1).1.disk = []) :=
  ⟨⟨by decide, by decide, by decide, by decide, by decide⟩,
    export_failure_cleanup cfgExportFailAt1 1 (by decide) (by decide) (by decide) (by decide)
      (by decide)⟩

theorem append_ne_empty_left (a b : String) (h : a ≠ "") : a ++ b ≠ "" := by
  intro he
  apply h
  have hd := congrArg String.data he
  simp only [String.data_append] at hd
  have : a.data = [] := (List.append_eq_nil.mp (by simpa using hd)).1
  exact String.ext (by simp [this])

theorem intercalate_go_append (s w : String) (as : List String) :
    ∀ acc, String.intercalate.go acc s (as ++ [w])
      = String.intercalate.go acc s as ++ s ++ w := by
  induction as with
  | nil => intro acc; rfl
  | cons a as ih => intro acc; exact ih (acc ++ s ++ a)

theorem intercalate_append_singleton (s w : String) (ws : List String) (h : ws ≠ []) :
    String.intercalate s (ws ++ [w]) = String.intercalate s ws ++ s ++ w := by
  cases ws with
  | nil => exact absurd rfl h
  | cons a as => exact intercalate_go_append s w as a

theorem fmtStep_rel (limit : ℕ) (st : FmtSt) (sp : List SpecLine × Option SpecLine)
    (w : WordTimestamp) (h : FmtRel st sp) :
    FmtRel (fmtStep limit st w) (specStep limit sp w) := by
  obtain ⟨hl, hcur⟩ := h
  by_cases hw : pyStrip w.word = ""
  · simp only [fmtStep, specStep, if_pos hw]
    exact ⟨hl, hcur⟩
  · have hwne : w.word ≠ "" := fun hempty => hw (by rw [hempty]; rfl)
    have hsingle : String.intercalate " " [w.word] = w.word := rfl
    cases hsp : sp.2 with
    | none =>
      have hcontent : st.content = "" := by rw [hsp] at hcur; exact hcur
      simp only [fmtStep, specStep, if_neg hw, hsp, if_pos hcontent]
      exact ⟨hl, rfl, hsingle.symm, by simp, hwne⟩
    | some cur =>
      have hx : st.marker = cur.marker ∧ st.content = String.intercalate " " cur.lineWords
          ∧ cur.lineWords ≠ [] ∧ st.content ≠ "" := by rw [hsp] at hcur; exact hcur
      obtain ⟨hmk, hct, hne, hcne⟩ := hx
      have hkey : st.marker ++ st.content ++ (" " ++ w.word)
          = renderLine ⟨cur.marker, cur.lineWords ++ [w.word]⟩ := by
        show _ = cur.marker ++ String.intercalate " " (cur.lineWords ++ [w.word])
        rw [intercalate_append_singleton _ _ _ hne, ← hmk, ← hct]
        simp [String.append_assoc]
      have hcontent2 : st.content ++ (" " ++ w.word)
          = String.intercalate " " (cur.lineWords ++ [w.word]) := by
        rw [intercalate_append_singleton _ _ _ hne, ← hct]
        simp [String.append_assoc]
      simp only [fmtStep, specStep, if_neg hw, hsp, if_neg hcne]
      by_cases hfit : limit < (renderLine ⟨cur.marker, cur.lineWords ++ [w.word]⟩).length
      · rw [if_pos (show limit < (st.marker ++ st.content ++ (" " ++ w.word)).length by
            rw [hkey]; exact hfit),
          if_pos hfit]
        refine ⟨?_, rfl, hsingle.symm, by simp, hwne⟩
        rw [hl, List.map_append]
        simp [renderLine, hmk, hct]
      · rw [if_neg (show ¬ limit < (st.marker ++ st.content ++ (" " ++ w.word)).length by
            rw [hkey]; exact hfit),
          if_neg hfit]
        refine ⟨hl, hmk, hcontent2, by simp, ?_⟩
        exact append_ne_empty_left _ _ hcne

theorem foldl_rel (limit : ℕ) (ws : List WordTimestamp) :
    ∀ (st : FmtSt) (sp : List SpecLine × Option SpecLine), FmtRel st sp →
      FmtRel (ws.foldl (fmtStep limit) st) (ws.foldl (specStep limit) sp) := by
  induction ws with
  | nil => intro st sp h; exact h
  | cons w rest ih =>
    intro st sp h
    exact ih _ _ (fmtStep_rel limit st sp w h)

theorem format_refines (r : TranscriptionResult) (limit : ℕ) :
    formatTranscriptionOutput r limit = formatTranscriptionOutputSpec r limit := by
  by_cases hws : r.word_timestamps.isEmpty
  · simp [formatTranscriptionOutput, formatTranscriptionOutputSpec, hws]
  · simp only [formatTranscriptionOutput, formatTranscriptionOutputSpec, hws, Bool.false_eq_true,
      if_false]
    obtain ⟨hl, hcur⟩ := foldl_rel limit r.word_timestamps ⟨[], "", ""⟩ ([], none) ⟨rfl, rfl⟩
    cases hsp : (r.word_timestamps.foldl (specStep limit) ([], none)).2 with
    | none =>
      have hcontent : (r.word_timestamps.foldl (fmtStep limit) ⟨[], "", ""⟩).content = "" := by
        rw [hsp] at hcur; exact hcur
      rw [if_pos hcontent, hl]
      simp
    | some cur =>
      have hx := by rw [hsp] at hcur; exact hcur
      obtain ⟨hmk, hct, hne, hcne⟩ := hx
      rw [if_neg hcne, hl]
      simp [renderLine, hmk, hct]

/-- Claim C8: the formatter greedily packs words onto marker-prefixed lines
exactly as the spec describes — each line begins with the start-time marker
(two decimal places) of the first word placed on it, later words on the line
are appended with single spaces and no markers, and a word starts a new line
carrying its own start-time marker exactly when appending it would push
prefix + content + separator past the character limit; on the spec's concrete
example the outputs for limits 80 and 10 are exactly as claimed. -/
theorem formatter_greedy_spec :
    (∀ (r : TranscriptionResult) (limit : ℕ),
      formatTranscriptionOutput r limit = formatTranscriptionOutputSpec r limit)
    ∧ formatTranscriptionOutput resHello 80 = "[0.10s] Hello world."
    ∧ formatTranscriptionOutput resHello 10 = "[0.10s] Hello\n[0.60s] world." := by
  have h1 : timeMarker (0.1 : ℚ) = "[0.10s] " := by
    have h2 : (⌊(0.1 : ℚ) * 100 + 1 / 2⌋ : ℤ) = 10 := by norm_num
    simp only [timeMarker, formatSeconds2, h2]
    decide
  have h6 : timeMarker (0.6 : ℚ) = "[0.60s] " := by
    have h2 : (⌊(0.6 : ℚ) * 100 + 1 / 2⌋ : ℤ) = 60 := by norm_num
    simp only [timeMarker, formatSeconds2, h2]
    decide
  refine ⟨format_refines, ?_, ?_⟩
  · simp only [formatTranscriptionOutput, resHello, List.foldl, fmtStep, h1, h6]
    decide
  · simp only [formatTranscriptionOutput, resHello, List.foldl, fmtStep, h1, h6]
    decide
